import Mathlib

/-!
Verification development for the bubulle annotation store
(`src/services/NotesStorage.ts`, `src/utils/fileUtils.ts`,
`src/utils/textUtils.ts`, `src/services/DecorationManager.ts`,
`src/managers/ClickHandler.ts`).

The TypeScript code is shallowly embedded:

* JavaScript strings are Lean `String`s; the JS library functions
  `String.prototype.trim`, `String.prototype.split(' ')` and
  `Array.prototype.join` are modelled by structurally recursive Lean
  functions over `List Char` (`jsTrim`, `jsSplitOnSpace`, `jsJoin`).
* Values produced by `JSON.parse` are modelled by the inductive `JValue`;
  a throwing `JSON.parse` is modelled by a parameter
  `parse : String → Option JValue` returning `none`
  (JSON numbers are modelled as `Int`: all line numbers in this system
  are integers).
* `path.resolve` is an external Node function; it is passed as a
  parameter `resolve : String → String` (idempotent in Node: resolving
  an already-resolved path is the identity).
* The file system is an association list from paths to file contents;
  `fs.writeFileSync`/`fs.renameSync` errors are modelled by a boolean
  `writeOk` parameter on the save path, and the `try`/`catch` blocks of
  the source are mirrored by total functions that take the catch branch
  where the corresponding operation reports failure.
-/

/-- The `Note` interface of `src/types.ts`:
`{ filePath: string; line: number; text: string; timestamp: string }`. -/
structure Note where
  filePath : String
  line : Int
  text : String
  timestamp : String
deriving DecidableEq, Repr

/-- The `NotesData` interface of `src/types.ts`: `{ notes: Note[] }`. -/
structure NotesData where
  notes : List Note
deriving DecidableEq, Repr

/-- Model of a value returned by `JSON.parse`. -/
inductive JValue where
  | jnull
  | jbool (b : Bool)
  | jnum (n : Int)
  | jstr (s : String)
  | jarr (elems : List JValue)
  | jobj (fields : List (String × JValue))

/-- JavaScript property lookup on a parsed JSON object.  `JSON.parse`
keeps the last of duplicate keys, hence the lookup takes the last
binding. -/
def jlookup (fields : List (String × JValue)) (key : String) : Option JValue :=
  (fields.reverse.find? (fun e => e.1 == key)).map (fun e => e.2)

/-- `note.filePath`‑style string property access, `""` when the property
is absent or not a string (only ever used on validated objects, where
the default is unreachable). -/
def jGetStr (v : JValue) (key : String) : String :=
  match v with
  | .jobj fields =>
    match jlookup fields key with
    | some (.jstr s) => s
    | _ => ""
  | _ => ""

/-- Numeric property access, `0` when absent or not a number. -/
def jGetNum (v : JValue) (key : String) : Int :=
  match v with
  | .jobj fields =>
    match jlookup fields key with
    | some (.jnum n) => n
    | _ => 0
  | _ => 0

/-- Model of `String.prototype.trim`: strip whitespace from both ends. -/
def jsTrim (s : String) : String :=
  String.mk (((s.data.dropWhile Char.isWhitespace).reverse.dropWhile
    Char.isWhitespace).reverse)

/-- Model of `text.split(' ')` over the character list: split on every
single space (adjacent spaces yield empty fragments, as in JS). -/
def jsSplitAux : List Char → List Char → List String
  | [], acc => [String.mk acc.reverse]
  | c :: cs, acc =>
    if c = ' ' then String.mk acc.reverse :: jsSplitAux cs []
    else jsSplitAux cs (c :: acc)

/-- Model of `String.prototype.split(' ')`. -/
def jsSplitOnSpace (s : String) : List String :=
  jsSplitAux s.data []

/-- Model of `Array.prototype.join(sep)`. -/
def jsJoin (sep : String) : List String → String
  | [] => ""
  | [x] => x
  | x :: xs => x ++ sep ++ jsJoin sep xs

/-- Model of JavaScript string comparison (`localeCompare` modelled as
code‑point lexicographic order), as a boolean strict order. -/
def charListLt : List Char → List Char → Bool
  | [], [] => false
  | [], _ :: _ => true
  | _ :: _, [] => false
  | a :: as, b :: bs =>
    if a.toNat < b.toNat then true
    else if b.toNat < a.toNat then false
    else charListLt as bs

/-- Strict string order used by the `getAllNotesSorted` comparator. -/
def strLt (a b : String) : Bool := charListLt a.data b.data

/-! ### File-system model (`src/utils/fileUtils.ts`) -/

/-- The file system: an association list path ↦ file content. -/
abbrev FS := List (String × String)

/-- Read a file's content, `none` when the path does not exist
(`fs.existsSync` + `fs.readFileSync`). -/
def fsRead (fs : FS) (p : String) : Option String :=
  (fs.find? (fun e => e.1 == p)).map (fun e => e.2)

/-- Write (create or overwrite) a file. -/
def fsWrite (fs : FS) (p : String) (c : String) : FS :=
  (p, c) :: fs.eraseP (fun e => e.1 == p)

/-- `safeReadFile` (fileUtils.ts:128-137): returns the trimmed file
content, or `null` when the file is absent (read errors, also mapped to
`null` there, are outside the file-system model). -/
def safeReadFile (fs : FS) (p : String) : Option String :=
  (fsRead fs p).map jsTrim

/-- The backup path `${filePath}.backup.${Date.now()}` used by
`backupCorruptedFile`. -/
def backupPath (filePath : String) (now : Nat) : String :=
  filePath ++ ".backup." ++ toString now

/-- `backupCorruptedFile` (fileUtils.ts:102-112): if the file exists,
copy it to the timestamped sibling backup path; any copy error is
swallowed. -/
def backupCorruptedFile (fs : FS) (filePath : String) (now : Nat) : FS :=
  match fsRead fs filePath with
  | some content => fsWrite fs (backupPath filePath now) content
  | none => fs

/-- `atomicWriteFile` (fileUtils.ts:117-123): write to `filePath + ".tmp"`
then rename over the target.  In the map model the temp-then-rename
pair collapses to a single write of the final content. -/
def atomicWriteFile (fs : FS) (filePath : String) (data : String) : FS :=
  fsWrite fs filePath data

/-! ### NotesStorage (`src/services/NotesStorage.ts`) -/

/-- `isValidNotesData` (NotesStorage.ts:226-228):
`data && Array.isArray(data.notes)`.  Only an object can carry a
`notes` property; every JSON object is truthy. -/
def isValidNotesData (v : JValue) : Bool :=
  match v with
  | .jobj fields =>
    match jlookup fields "notes" with
    | some (.jarr _) => true
    | _ => false
  | _ => false

/-- Extract the `notes` array when `isValidNotesData` holds. -/
def getNotesArray (v : JValue) : Option (List JValue) :=
  match v with
  | .jobj fields =>
    match jlookup fields "notes" with
    | some (.jarr xs) => some xs
    | _ => none
  | _ => none

/-- `isValidNote` (NotesStorage.ts:246-260): the element is an object
whose `filePath` is a string, `line` a number ≥ 0, `text` a string with
non-empty trim, and `timestamp` a string. -/
def isValidNote (v : JValue) : Bool :=
  match v with
  | .jobj fields =>
    (match jlookup fields "filePath" with
      | some (.jstr _) => true | _ => false) &&
    (match jlookup fields "line" with
      | some (.jnum n) => decide (0 ≤ n) | _ => false) &&
    (match jlookup fields "text" with
      | some (.jstr t) => decide (jsTrim t ≠ "") | _ => false) &&
    (match jlookup fields "timestamp" with
      | some (.jstr _) => true | _ => false)
  | _ => false

/-- The normalization applied by `sanitizeNotes` to one raw element:
`{...note, filePath: path.resolve(note.filePath), text: note.text.trim()}`. -/
def jToNote (resolve : String → String) (v : JValue) : Note :=
  { filePath := resolve (jGetStr v "filePath")
    line := jGetNum v "line"
    text := jsTrim (jGetStr v "text")
    timestamp := jGetStr v "timestamp" }

/-- `sanitizeNotes` (NotesStorage.ts:233-241): keep the valid elements,
canonicalize their path and trim their text. -/
def sanitizeNotes (resolve : String → String) (notes : List JValue) : List Note :=
  (notes.filter isValidNote).map (jToNote resolve)

/-- Result of `loadNotes`: the returned collection plus the file system
after any corruption backup. -/
structure LoadResult where
  data : NotesData
  fs : FS
deriving DecidableEq, Repr

/-- `loadNotes` (NotesStorage.ts:33-66).  `safeReadFile` yields the
trimmed bytes or `null`; falsy data (absent file or empty trim) yields
`{notes: []}` with no backup; a `JSON.parse` failure or an invalid
top-level shape triggers `backupAndReset` (= `backupCorruptedFile`) and
yields `{notes: []}`; otherwise the sanitized elements are returned.
Every failure is caught, so the function is total: it never throws. -/
def loadNotes (parse : String → Option JValue) (resolve : String → String)
    (notesPath : String) (now : Nat) (fs : FS) : LoadResult :=
  match safeReadFile fs notesPath with
  | none => ⟨⟨[]⟩, fs⟩
  | some data =>
    if data = "" then ⟨⟨[]⟩, fs⟩
    else
      match parse data with
      | none => ⟨⟨[]⟩, backupCorruptedFile fs notesPath now⟩
      | some parsed =>
        match getNotesArray parsed with
        | some xs => ⟨⟨sanitizeNotes resolve xs⟩, fs⟩
        | none => ⟨⟨[]⟩, backupCorruptedFile fs notesPath now⟩

/-- `saveNotes` (NotesStorage.ts:71-110).  The typed argument always
satisfies `isValidNotesData`, so the only failure point is the write
itself (`writeOk = false`); the `catch` block reports the error with a
message and returns normally — the error never propagates to the
caller, and on failure the file system is unchanged. -/
def saveNotes (stringify : NotesData → String) (notesPath : String)
    (writeOk : Bool) (fs : FS) (notesData : NotesData) : FS :=
  if writeOk then atomicWriteFile fs notesPath (stringify notesData) else fs

/-- The lookup predicate used by `addOrUpdateNote`, `noteExists` and
`deleteNote`:
`path.resolve(note.filePath) === path.resolve(filePath) && note.line === line`. -/
def matchesKey (resolve : String → String) (filePath : String) (line : Int)
    (n : Note) : Bool :=
  resolve n.filePath == resolve filePath && n.line == line

/-- The canonical key of a stored note: `(path.resolve(filePath), line)`. -/
def noteKey (resolve : String → String) (n : Note) : String × Int :=
  (resolve n.filePath, n.line)

/-- Functional rendering of the `findIndex` / assign-at-index / `push`
sequence of `addOrUpdateNote` (NotesStorage.ts:137-156): replace the
first element matching the key, or append when none isMatch. -/
def upsertInto (isMatch : Note → Bool) (newNote : Note) : List Note → List Note
  | [] => [newNote]
  | n :: rest =>
    if isMatch n then newNote :: rest else n :: upsertInto isMatch newNote rest

/-- The collection-level effect of `addOrUpdateNote`: build the fresh
note `{filePath: path.resolve(filePath), line, text: text.trim(),
timestamp: new Date().toISOString()}` and upsert it by key. -/
def upsertNotes (resolve : String → String) (nowISO : String)
    (notes : List Note) (filePath : String) (line : Int) (text : String) :
    List Note :=
  upsertInto (matchesKey resolve filePath line)
    ⟨resolve filePath, line, jsTrim text, nowISO⟩ notes

/-- Result of a mutating store operation: the returned boolean and the
file system afterwards. -/
structure OpResult where
  ok : Bool
  fs : FS
deriving DecidableEq, Repr

/-- `addOrUpdateNote` (NotesStorage.ts:126-166): load, upsert by
`(canonical filePath, line)`, save, return `true`.  The surrounding
`try`/`catch` can only return `false` when an exception escapes
`loadNotes` or `saveNotes`; both catch internally, so the boolean is
`true` on every run — in particular also when the underlying write
fails (`writeOk = false`), because `saveNotes` swallows the error after
showing a message. -/
def addOrUpdateNote (parse : String → Option JValue)
    (stringify : NotesData → String) (resolve : String → String)
    (notesPath : String) (now : Nat) (nowISO : String) (writeOk : Bool)
    (fs : FS) (filePath : String) (line : Int) (text : String) : OpResult :=
  let lr := loadNotes parse resolve notesPath now fs
  let newNotes := upsertNotes resolve nowISO lr.data.notes filePath line text
  ⟨true, saveNotes stringify notesPath writeOk lr.fs ⟨newNotes⟩⟩

/-- `deleteNote` (NotesStorage.ts:187-207): load, filter out the
matching entries; when nothing was removed return `false` without
saving, otherwise save the remainder and return `true`. -/
def deleteNote (parse : String → Option JValue)
    (stringify : NotesData → String) (resolve : String → String)
    (notesPath : String) (now : Nat) (writeOk : Bool) (fs : FS)
    (filePath : String) (line : Int) : OpResult :=
  let lr := loadNotes parse resolve notesPath now fs
  let remaining :=
    lr.data.notes.filter (fun n => !(matchesKey resolve filePath line n))
  if remaining.length = lr.data.notes.length then ⟨false, lr.fs⟩
  else ⟨true, saveNotes stringify notesPath writeOk lr.fs ⟨remaining⟩⟩

/-- `getNotesForFile` (NotesStorage.ts:115-121): filter by canonical
path equality. -/
def getNotesForFile (parse : String → Option JValue)
    (resolve : String → String) (notesPath : String) (now : Nat) (fs : FS)
    (filePath : String) : List Note :=
  ((loadNotes parse resolve notesPath now fs).data.notes).filter
    (fun n => resolve n.filePath == resolve filePath)

/-- The comparator of `getAllNotesSorted` (NotesStorage.ts:214-220) as a
total boolean order: first `filePath.localeCompare`, ties broken by
ascending `line`. -/
def noteLe (a b : Note) : Bool :=
  if a.filePath = b.filePath then decide (a.line ≤ b.line)
  else strLt a.filePath b.filePath

/-- `getAllNotesSorted` (NotesStorage.ts:212-221): load everything and
stable-sort by `(filePath, line)` (JS `Array.prototype.sort` is
stable). -/
def getAllNotesSorted (parse : String → Option JValue)
    (resolve : String → String) (notesPath : String) (now : Nat) (fs : FS) :
    List Note :=
  ((loadNotes parse resolve notesPath now fs).data.notes).mergeSort noteLe

/-! ### Position Resolver (`src/services/DecorationManager.ts`) -/

/-- `filterValidNotes` (DecorationManager.ts:106-116): keep exactly the
notes with `0 ≤ line < editor.document.lineCount`; out-of-range notes
are only excluded from the render output, nothing is written back. -/
def filterValidNotes (notes : List Note) (lineCount : Nat) : List Note :=
  notes.filter (fun n => decide (0 ≤ n.line) && decide (n.line < (lineCount : Int)))

/-! ### Word-wrap (`src/utils/textUtils.ts`, `formatTextForDisplay`) -/

/-- One iteration of the word loop of `formatTextForDisplay`
(textUtils.ts:156-165): the accumulator is `(lines, currentLine)`;
append the word when `currentLine.length + word.length + 1 ≤
maxLineLength`, else flush the (non-empty) current line and restart
from the word. -/
def wrapStep (maxLineLength : Nat) (acc : List String × String)
    (word : String) : List String × String :=
  if acc.2.length + word.length + 1 ≤ maxLineLength then
    (acc.1, if acc.2 = "" then word else acc.2 ++ " " ++ word)
  else
    (if acc.2 = "" then acc.1 else acc.1 ++ [acc.2], word)

/-- The list of wrapped lines produced for non-empty input: fold the
word loop, then push the final non-empty current line. -/
def wrapLines (text : String) (maxLineLength : Nat) : List String :=
  let acc := (jsSplitOnSpace text).foldl (wrapStep maxLineLength) ([], "")
  if acc.2 = "" then acc.1 else acc.1 ++ [acc.2]

/-- `formatTextForDisplay` (textUtils.ts:147-172): `''` for falsy input,
otherwise the wrapped lines joined with `'\n'`. -/
def formatTextForDisplay (text : String) (maxLineLength : Nat) : String :=
  if text = "" then "" else jsJoin "\n" (wrapLines text maxLineLength)

/-! ### Interaction Detector (`src/managers/ClickHandler.ts`)

The single-threaded event loop is modelled by an explicit event list: a
`sel` event is one `onDidChangeTextEditorSelection` callback run, and a
`fire` event is the expiry of the scheduled debounce timeout.
`clearTimeout` on a superseding event is modelled by the pending
candidate being replaced, so an earlier timer can never fire once
superseded.  Whether the eventual evaluation at a position actually
invokes the `onNoteClick` callback (caret within the last 10 characters
of the line and a note present at `(path, line)`) is abstracted by the
oracle `resolves`; the step reports `1` exactly when the callback is
invoked. -/

/-- One `onDidChangeTextEditorSelection` event as seen by
`registerSelectionHandler` (ClickHandler.ts:55-85). -/
structure SelEvent where
  isEmpty : Bool
  isMouse : Bool
  line : Nat
  character : Nat
deriving DecidableEq, Repr

/-- Events processed by the handler: selection changes and the debounce
timer expiring. -/
inductive ClickEvent where
  | sel (e : SelEvent)
  | fire
deriving DecidableEq, Repr

/-- The mutable fields of `ClickHandler`: the pending debounced
candidate (`clickTimeout`, carrying the position captured by the
scheduled closure) and `lastClickPosition`. -/
structure ClickState where
  clickTimeout : Option (Nat × Nat)
  lastClickPosition : Option (Nat × Nat)
deriving DecidableEq, Repr

/-- `isSamePosition` (ClickHandler.ts:90-94). -/
def isSamePosition (s : ClickState) (line character : Nat) : Bool :=
  match s.lastClickPosition with
  | some p => p.1 == line && p.2 == character
  | none => false

/-- One event step.  A `sel` event is dropped unless the selection is
empty, the kind is `Mouse`, and the position differs from
`lastClickPosition`; a qualifying event records the position and
(re)starts the debounce with the new candidate (`debounceClick`,
ClickHandler.ts:99-108).  A `fire` event runs the pending callback
(`handlePotentialNoteClick`), reporting `1` when the oracle says the
position resolves to a note click, and clears `clickTimeout`. -/
def clickStep (resolves : Nat → Nat → Bool) (s : ClickState)
    (e : ClickEvent) : ClickState × Nat :=
  match e with
  | .sel ev =>
    if !ev.isEmpty || !ev.isMouse then (s, 0)
    else if isSamePosition s ev.line ev.character then (s, 0)
    else
      (⟨some (ev.line, ev.character), some (ev.line, ev.character)⟩, 0)
  | .fire =>
    match s.clickTimeout with
    | some p =>
      (⟨none, s.lastClickPosition⟩, if resolves p.1 p.2 then 1 else 0)
    | none => (s, 0)

/-- Run a sequence of events, accumulating the number of resolved-click
callback invocations. -/
def runClicks (resolves : Nat → Nat → Bool) (s : ClickState) :
    List ClickEvent → ClickState × Nat
  | [] => (s, 0)
  | e :: rest =>
    ((runClicks resolves (clickStep resolves s e).1 rest).1,
     (clickStep resolves s e).2
       + (runClicks resolves (clickStep resolves s e).1 rest).2)

/-! ### Helper lemmas: the file-system model -/

lemma fsRead_fsWrite_self (fs : FS) (p c : String) :
    fsRead (fsWrite fs p c) p = some c := by
  simp [fsRead, fsWrite, List.find?]

lemma find?_eraseP_ne (fs : FS) (p q : String) (h : q ≠ p) :
    (fs.eraseP (fun e => e.1 == p)).find? (fun e => e.1 == q)
      = fs.find? (fun e => e.1 == q) := by
  induction fs with
  | nil => rfl
  | cons e t ih =>
    simp only [List.eraseP_cons]
    by_cases hp : e.1 = p
    · have h1 : (e.1 == p) = true := by simp [hp]
      have h2 : (e.1 == q) = false := by
        simp [hp]; exact fun hc => h hc.symm
      simp [h1, List.find?, h2]
    · have h1 : (e.1 == p) = false := by simp [hp]
      by_cases hq : e.1 = q
      · have h2 : (e.1 == q) = true := by simp [hq]
        simp [h1, List.find?, h2]
      · have h2 : (e.1 == q) = false := by simp [hq]
        simp [h1, List.find?, h2, ih]

lemma fsRead_fsWrite_ne (fs : FS) (p q c : String) (h : q ≠ p) :
    fsRead (fsWrite fs p c) q = fsRead fs q := by
  have hq : (p == q) = false := by
    simp; exact fun hc => h hc.symm
  simp [fsRead, fsWrite, List.find?, hq, find?_eraseP_ne fs p q h]

lemma fsWrite_length_fresh (fs : FS) (p c : String)
    (h : fsRead fs p = none) : (fsWrite fs p c).length = fs.length + 1 := by
  have hfind : fs.find? (fun e => e.1 == p) = none := by
    cases hf : fs.find? (fun e => e.1 == p) with
    | none => rfl
    | some e => rw [fsRead, hf] at h; simp at h
  have hall := List.find?_eq_none.1 hfind
  simp [fsWrite, List.eraseP_of_forall_not hall]

lemma backupPath_ne (p : String) (now : Nat) : backupPath p now ≠ p := by
  intro h
  have hlen := congrArg String.length h
  have h8 : (".backup." : String).length = 8 := by decide
  simp [backupPath, String.length_append, h8] at hlen
  omega

/-! ### Helper lemmas: shape of `loadNotes` -/

lemma loadNotes_fs_eq_or (parse : String → Option JValue)
    (resolve : String → String) (notesPath : String) (now : Nat) (fs : FS) :
    (loadNotes parse resolve notesPath now fs).fs = fs ∨
    (loadNotes parse resolve notesPath now fs).fs
      = backupCorruptedFile fs notesPath now := by
  unfold loadNotes
  split
  · exact Or.inl rfl
  · split
    · exact Or.inl rfl
    · split
      · exact Or.inr rfl
      · split
        · exact Or.inl rfl
        · exact Or.inr rfl

lemma fsRead_backupCorruptedFile_ne (fs : FS) (p : String) (now : Nat)
    (q : String) (h : q ≠ backupPath p now) :
    fsRead (backupCorruptedFile fs p now) q = fsRead fs q := by
  unfold backupCorruptedFile
  cases hr : fsRead fs p with
  | none => rfl
  | some content => exact fsRead_fsWrite_ne fs (backupPath p now) q content h

lemma loadNotes_fsRead_preserved (parse : String → Option JValue)
    (resolve : String → String) (notesPath : String) (now : Nat) (fs : FS)
    (q : String) (h : q ≠ backupPath notesPath now) :
    fsRead (loadNotes parse resolve notesPath now fs).fs q = fsRead fs q := by
  rcases loadNotes_fs_eq_or parse resolve notesPath now fs with he | he <;> rw [he]
  exact fsRead_backupCorruptedFile_ne fs notesPath now q h

/-! ### Claim C10 -/

/-- C10 — If the persisted notes file exists but its content is empty or
whitespace-only, `loadNotes` treats it as if no file existed: it returns
`{notes: []}` and creates no backup (the content is trimmed by
`safeReadFile` before the emptiness check, so whitespace-only bytes are
not classified as corruption). -/
theorem loadNotes_whitespace_empty (parse : String → Option JValue)
    (resolve : String → String) (notesPath : String) (now : Nat) (fs : FS)
    (content : String) (hread : fsRead fs notesPath = some content)
    (htrim : jsTrim content = "") :
    loadNotes parse resolve notesPath now fs = ⟨⟨[]⟩, fs⟩ := by
  unfold loadNotes safeReadFile
  rw [hread]
  simp [htrim]

theorem loadNotes_whitespace_empty_witness :
    loadNotes (fun _ => none) (fun s => s) "notes.json" 0
        [("notes.json", "   ")] = ⟨⟨[]⟩, [("notes.json", "   ")]⟩ :=
  loadNotes_whitespace_empty (fun _ => none) (fun s => s) "notes.json" 0
    [("notes.json", "   ")] "   " (by decide) (by decide)

/-! ### Claim C1 -/

/-- C1 (counterexample) — A persisted file whose content is the single
space `" "` is present and fails `JSON.parse` (the parse oracle maps its
trimmed content `""` to `none`, as `JSON.parse("")` throws), yet
`loadNotes` returns `{notes: []}` with the file system unchanged: no
backup file is created, refuting "creates exactly one new backup file"
for this input. -/
theorem loadNotes_corrupt_claim_counterexample :
    fsRead [("notes.json", " ")] "notes.json" = some " " ∧
    (fun _ : String => (none : Option JValue)) (jsTrim " ") = none ∧
    loadNotes (fun _ => none) (fun s => s) "notes.json" 7
        [("notes.json", " ")] = ⟨⟨[]⟩, [("notes.json", " ")]⟩ :=
  ⟨by decide, rfl, by decide⟩

/-- C1 (amended) — For persisted content that is present, does not trim
to the empty string, and either fails to parse or has a top-level shape
other than `{ notes: array }`, `loadNotes` returns `{notes: []}` (it is
a total function: no exception), and creates exactly one new file — the
sibling backup path carrying the recovery marker and timestamp — with
the original bytes, leaving every other path (in particular any prior
backup, whose timestamped name differs) unchanged. -/
theorem loadNotes_corrupt_backup_spec (parse : String → Option JValue)
    (resolve : String → String) (notesPath : String) (now : Nat) (fs : FS)
    (content : String) (hread : fsRead fs notesPath = some content)
    (htrim : jsTrim content ≠ "")
    (hbad : parse (jsTrim content) = none ∨
      ∃ v, parse (jsTrim content) = some v ∧ getNotesArray v = none)
    (hfresh : fsRead fs (backupPath notesPath now) = none) :
    (loadNotes parse resolve notesPath now fs).data = ⟨[]⟩ ∧
    (loadNotes parse resolve notesPath now fs).fs
        = fsWrite fs (backupPath notesPath now) content ∧
    fsRead (loadNotes parse resolve notesPath now fs).fs
        (backupPath notesPath now) = some content ∧
    (∀ q, q ≠ backupPath notesPath now →
      fsRead (loadNotes parse resolve notesPath now fs).fs q = fsRead fs q) ∧
    ((loadNotes parse resolve notesPath now fs).fs).length = fs.length + 1 := by
  have hbackup : backupCorruptedFile fs notesPath now
      = fsWrite fs (backupPath notesPath now) content := by
    unfold backupCorruptedFile
    rw [hread]
  have hmain : loadNotes parse resolve notesPath now fs
      = ⟨⟨[]⟩, backupCorruptedFile fs notesPath now⟩ := by
    unfold loadNotes safeReadFile
    rw [hread]
    rcases hbad with hb | ⟨v, hv, hshape⟩
    · simp [htrim, hb]
    · simp [htrim, hv, hshape]
  rw [hmain, hbackup]
  refine ⟨rfl, rfl, fsRead_fsWrite_self fs (backupPath notesPath now) content,
    fun q hq => fsRead_fsWrite_ne fs (backupPath notesPath now) q content hq,
    fsWrite_length_fresh fs (backupPath notesPath now) content hfresh⟩

theorem loadNotes_corrupt_backup_spec_witness :
    (loadNotes (fun _ => none) (fun s => s) "notes.json" 0
        [("notes.json", "oops")]).data = ⟨[]⟩ ∧
    fsRead (loadNotes (fun _ => none) (fun s => s) "notes.json" 0
        [("notes.json", "oops")]).fs (backupPath "notes.json" 0)
      = some "oops" ∧
    ((loadNotes (fun _ => none) (fun s => s) "notes.json" 0
        [("notes.json", "oops")]).fs).length
      = ([("notes.json", "oops")] : FS).length + 1 := by
  have h := loadNotes_corrupt_backup_spec (fun _ => none) (fun s => s)
    "notes.json" 0 [("notes.json", "oops")] "oops" (by decide) (by decide)
    (Or.inl rfl) (by decide)
  exact ⟨h.1, h.2.2.1, h.2.2.2.2⟩

/-! ### Claim C3 -/

/-- C3 (counterexample) — With a failing underlying write
(`writeOk = false`), `addOrUpdateNote` still returns `true`: starting
from an empty file system the call reports success while nothing was
persisted (the notes file does not exist after the call), refuting
"when the underlying write fails, upsert returns false". -/
theorem addOrUpdateNote_save_failure_counterexample :
    addOrUpdateNote (fun _ => none) (fun _ => "") (fun s => s) "notes.json"
        0 "2024-01-01T00:00:00.000Z" false [] "/a.ts" 4 "fix this"
      = ⟨true, []⟩ ∧
    fsRead (addOrUpdateNote (fun _ => none) (fun _ => "") (fun s => s)
        "notes.json" 0 "2024-01-01T00:00:00.000Z" false [] "/a.ts" 4
        "fix this").fs "notes.json" = none :=
  ⟨by decide, by decide⟩

/-- C3 (amended) — `addOrUpdateNote` returns `true` on every run
regardless of the save outcome: `saveNotes` catches its own write
failure internally (reporting it with an error message), so no
exception reaches the `catch` that would return `false`.  When the
write fails, the file system is exactly the one left by `loadNotes` —
the mutation is not persisted even though the call reports success. -/
theorem addOrUpdateNote_returns_true (parse : String → Option JValue)
    (stringify : NotesData → String) (resolve : String → String)
    (notesPath : String) (now : Nat) (nowISO : String) (writeOk : Bool)
    (fs : FS) (filePath : String) (line : Int) (text : String) :
    (addOrUpdateNote parse stringify resolve notesPath now nowISO writeOk fs
        filePath line text).ok = true ∧
    (writeOk = false →
      (addOrUpdateNote parse stringify resolve notesPath now nowISO writeOk fs
          filePath line text).fs
        = (loadNotes parse resolve notesPath now fs).fs) := by
  constructor
  · rfl
  · intro h
    simp [addOrUpdateNote, saveNotes, h]

theorem addOrUpdateNote_returns_true_witness :
    (addOrUpdateNote (fun _ => none) (fun _ => "") (fun s => s) "notes.json"
        0 "ts" false [] "/a.ts" 4 "x").ok = true ∧
    (addOrUpdateNote (fun _ => none) (fun _ => "") (fun s => s) "notes.json"
        0 "ts" false [] "/a.ts" 4 "x").fs
      = (loadNotes (fun _ => none) (fun s => s) "notes.json" 0 []).fs := by
  have h := addOrUpdateNote_returns_true (fun _ => none) (fun _ => "")
    (fun s => s) "notes.json" 0 "ts" false [] "/a.ts" 4 "x"
  exact ⟨h.1, h.2 rfl⟩

/-! ### Claim C5 -/

/-- C5 — `deleteNote` behaviour.  When no loaded annotation matches
`(canonical filePath, line)`, it returns `false`, performs no save (the
resulting file system is exactly the post-load one) and the persisted
notes file is unchanged.  When a match exists it returns `true`, saves
the loaded collection minus every matching entry, and the saved
collection contains exactly the non-matching loaded notes. -/
theorem deleteNote_spec (parse : String → Option JValue)
    (stringify : NotesData → String) (resolve : String → String)
    (notesPath : String) (now : Nat) (writeOk : Bool) (fs : FS)
    (filePath : String) (line : Int) :
    ((∀ n ∈ (loadNotes parse resolve notesPath now fs).data.notes,
        matchesKey resolve filePath line n = false) →
      deleteNote parse stringify resolve notesPath now writeOk fs filePath line
        = ⟨false, (loadNotes parse resolve notesPath now fs).fs⟩ ∧
      fsRead (deleteNote parse stringify resolve notesPath now writeOk fs
          filePath line).fs notesPath = fsRead fs notesPath) ∧
    ((∃ n ∈ (loadNotes parse resolve notesPath now fs).data.notes,
        matchesKey resolve filePath line n = true) →
      (deleteNote parse stringify resolve notesPath now writeOk fs filePath
          line).ok = true ∧
      (deleteNote parse stringify resolve notesPath now writeOk fs filePath
          line).fs
        = saveNotes stringify notesPath writeOk
            (loadNotes parse resolve notesPath now fs).fs
            ⟨(loadNotes parse resolve notesPath now fs).data.notes.filter
              (fun n => !(matchesKey resolve filePath line n))⟩ ∧
      ∀ n, (n ∈ (loadNotes parse resolve notesPath now fs).data.notes.filter
              (fun n => !(matchesKey resolve filePath line n)) ↔
            (n ∈ (loadNotes parse resolve notesPath now fs).data.notes ∧
              matchesKey resolve filePath line n = false))) := by
  constructor
  · intro hnone
    have hfilt : (loadNotes parse resolve notesPath now fs).data.notes.filter
        (fun n => !(matchesKey resolve filePath line n))
        = (loadNotes parse resolve notesPath now fs).data.notes :=
      List.filter_eq_self.2 (fun n hn => by simp [hnone n hn])
    have hdel : deleteNote parse stringify resolve notesPath now writeOk fs
        filePath line
        = ⟨false, (loadNotes parse resolve notesPath now fs).fs⟩ := by
      unfold deleteNote
      simp [hfilt]
    refine ⟨hdel, ?_⟩
    rw [hdel]
    exact loadNotes_fsRead_preserved parse resolve notesPath now fs notesPath
      (backupPath_ne notesPath now).symm
  · rintro ⟨n, hn, hmatch⟩
    have hlt : ((loadNotes parse resolve notesPath now fs).data.notes.filter
        (fun n => !(matchesKey resolve filePath line n))).length
        ≠ (loadNotes parse resolve notesPath now fs).data.notes.length := by
      intro hlen
      have := (List.filter_length_eq_length.1 hlen) n hn
      simp [hmatch] at this
    have hdel : deleteNote parse stringify resolve notesPath now writeOk fs
        filePath line
        = ⟨true, saveNotes stringify notesPath writeOk
            (loadNotes parse resolve notesPath now fs).fs
            ⟨(loadNotes parse resolve notesPath now fs).data.notes.filter
              (fun n => !(matchesKey resolve filePath line n))⟩⟩ := by
      unfold deleteNote
      simp [hlt]
    refine ⟨by rw [hdel], by rw [hdel], fun m => ?_⟩
    simp [List.mem_filter]

theorem deleteNote_spec_witness :
    (deleteNote
        (fun _ => some (JValue.jobj [("notes", JValue.jarr
          [JValue.jobj [("filePath", JValue.jstr "/a.ts"),
            ("line", JValue.jnum 4), ("text", JValue.jstr "x"),
            ("timestamp", JValue.jstr "t")]])]))
        (fun _ => "[]") (fun s => s) "notes.json" 0 true
        [("notes.json", "data")] "/a.ts" 4).ok = true := by
  have h := (deleteNote_spec
      (fun _ => some (JValue.jobj [("notes", JValue.jarr
        [JValue.jobj [("filePath", JValue.jstr "/a.ts"),
          ("line", JValue.jnum 4), ("text", JValue.jstr "x"),
          ("timestamp", JValue.jstr "t")]])]))
      (fun _ => "[]") (fun s => s) "notes.json" 0 true
      [("notes.json", "data")] "/a.ts" 4).2
    ⟨⟨"/a.ts", 4, "x", "t"⟩, by decide, by decide⟩
  exact h.1

/-! ### Key-uniqueness machinery (claims C2, C4) -/

/-- The uniqueness invariant of the data model: at most one annotation
per canonical `(filePath, line)` key. -/
abbrev UniqueKeys (resolve : String → String) (notes : List Note) : Prop :=
  (notes.map (noteKey resolve)).Nodup

/-- The canonical key of a raw (pre-sanitization) persisted element, as
the store's lookups would compute it: `(path.resolve(filePath), line)`. -/
def jNoteKey (resolve : String → String) (v : JValue) : String × Int :=
  (resolve (jGetStr v "filePath"), jGetNum v "line")

lemma noteKey_jToNote (resolve : String → String)
    (hres : ∀ x, resolve (resolve x) = resolve x) (v : JValue) :
    noteKey resolve (jToNote resolve v) = jNoteKey resolve v := by
  simp [noteKey, jToNote, jNoteKey, hres]

lemma matchesKey_iff (resolve : String → String) (filePath : String)
    (line : Int) (n : Note) :
    matchesKey resolve filePath line n = true ↔
      noteKey resolve n = (resolve filePath, line) := by
  simp [matchesKey, noteKey, Prod.ext_iff]

lemma upsertInto_cons_pos (isMatch : Note → Bool) (newNote n : Note)
    (rest : List Note) (h : isMatch n = true) :
    upsertInto isMatch newNote (n :: rest) = newNote :: rest := by
  simp [upsertInto, h]

lemma upsertInto_cons_neg (isMatch : Note → Bool) (newNote n : Note)
    (rest : List Note) (h : isMatch n = false) :
    upsertInto isMatch newNote (n :: rest)
      = n :: upsertInto isMatch newNote rest := by
  simp [upsertInto, h]

lemma mem_upsertInto (isMatch : Note → Bool) (newNote : Note) :
    ∀ (l : List Note) (a : Note),
      a ∈ upsertInto isMatch newNote l → a = newNote ∨ a ∈ l := by
  intro l
  induction l with
  | nil => intro a ha; simpa [upsertInto] using ha
  | cons n rest ih =>
    intro a ha
    cases hm : isMatch n with
    | true =>
      rw [upsertInto_cons_pos isMatch newNote n rest hm] at ha
      rcases List.mem_cons.1 ha with ha | ha
      · exact Or.inl ha
      · exact Or.inr (List.mem_cons_of_mem n ha)
    | false =>
      rw [upsertInto_cons_neg isMatch newNote n rest hm] at ha
      rcases List.mem_cons.1 ha with ha | ha
      · exact Or.inr (ha ▸ List.mem_cons_self n rest)
      · rcases ih a ha with h | h
        · exact Or.inl h
        · exact Or.inr (List.mem_cons_of_mem n h)

lemma upsertInto_nodup (resolve : String → String) (k : String × Int)
    (isMatch : Note → Bool) (newNote : Note)
    (hp : ∀ n, isMatch n = true ↔ noteKey resolve n = k)
    (hk : noteKey resolve newNote = k) :
    ∀ l : List Note, (l.map (noteKey resolve)).Nodup →
      ((upsertInto isMatch newNote l).map (noteKey resolve)).Nodup := by
  intro l
  induction l with
  | nil => intro _; simp [upsertInto]
  | cons n rest ih =>
    intro hnd
    rw [List.map_cons, List.nodup_cons] at hnd
    obtain ⟨hout, htail⟩ := hnd
    cases hm : isMatch n with
    | true =>
      have hkey : noteKey resolve n = k := (hp n).1 hm
      rw [upsertInto_cons_pos isMatch newNote n rest hm, List.map_cons,
        List.nodup_cons]
      exact ⟨by rw [hk, ← hkey]; exact hout, htail⟩
    | false =>
      rw [upsertInto_cons_neg isMatch newNote n rest hm, List.map_cons,
        List.nodup_cons]
      refine ⟨?_, ih htail⟩
      intro hmem
      rcases List.mem_map.1 hmem with ⟨a, ha, hae⟩
      rcases mem_upsertInto isMatch newNote rest a ha with rfl | ha'
      · rw [hk] at hae
        have : isMatch n = true := (hp n).2 hae.symm
        rw [hm] at this
        cases this
      · exact hout (List.mem_map.2 ⟨a, ha', hae⟩)

lemma upsertInto_length_of_mem (isMatch : Note → Bool) (newNote : Note) :
    ∀ l : List Note, (∃ n ∈ l, isMatch n = true) →
      (upsertInto isMatch newNote l).length = l.length := by
  intro l
  induction l with
  | nil => rintro ⟨n, hn, _⟩; cases hn
  | cons n rest ih =>
    rintro ⟨m, hm, hmatch⟩
    cases hn : isMatch n with
    | true =>
      rw [upsertInto_cons_pos isMatch newNote n rest hn]
      simp
    | false =>
      rcases List.mem_cons.1 hm with rfl | hm'
      · rw [hn] at hmatch; cases hmatch
      · rw [upsertInto_cons_neg isMatch newNote n rest hn]
        simp [ih ⟨m, hm', hmatch⟩]

lemma upsertInto_filter (resolve : String → String) (k : String × Int)
    (isMatch : Note → Bool) (newNote : Note)
    (hp : ∀ n, isMatch n = true ↔ noteKey resolve n = k)
    (hk : noteKey resolve newNote = k) :
    ∀ l : List Note, (l.map (noteKey resolve)).Nodup →
      (upsertInto isMatch newNote l).filter isMatch = [newNote] := by
  intro l
  induction l with
  | nil => intro _; simp [upsertInto, List.filter, (hp newNote).2 hk]
  | cons n rest ih =>
    intro hnd
    rw [List.map_cons, List.nodup_cons] at hnd
    obtain ⟨hout, htail⟩ := hnd
    cases hm : isMatch n with
    | true =>
      have hkey : noteKey resolve n = k := (hp n).1 hm
      have hrest : rest.filter isMatch = [] := by
        refine List.filter_eq_nil_iff.2 (fun a ha hmatch => ?_)
        have hak : noteKey resolve a = k := (hp a).1 hmatch
        exact hout (List.mem_map.2 ⟨a, ha, by rw [hak, hkey]⟩)
      rw [upsertInto_cons_pos isMatch newNote n rest hm]
      simp [List.filter, (hp newNote).2 hk, hrest]
    | false =>
      rw [upsertInto_cons_neg isMatch newNote n rest hm]
      simp [List.filter, hm, ih htail]

/-! ### Claim C2 -/

/-- C2 — Key uniqueness is preserved by every collection-returning
operation: (load) when the valid persisted elements have pairwise
distinct canonical keys, the sanitized collection has unique keys;
(upsert) `upsertNotes` preserves unique keys; moreover an upsert whose
key already occurs replaces the entry in place — the length is
unchanged, no duplicate is appended; (delete) the filtered collection
keeps unique keys.  `resolve` is `path.resolve`, idempotent. -/
theorem store_key_uniqueness (resolve : String → String)
    (hres : ∀ x, resolve (resolve x) = resolve x) (xs : List JValue)
    (notes : List Note) (nowISO filePath text : String) (line : Int) :
    (((xs.filter isValidNote).map (jNoteKey resolve)).Nodup →
      UniqueKeys resolve (sanitizeNotes resolve xs)) ∧
    (UniqueKeys resolve notes →
      UniqueKeys resolve (upsertNotes resolve nowISO notes filePath line text)) ∧
    ((∃ n ∈ notes, matchesKey resolve filePath line n = true) →
      (upsertNotes resolve nowISO notes filePath line text).length
        = notes.length) ∧
    (UniqueKeys resolve notes →
      UniqueKeys resolve
        (notes.filter (fun n => !(matchesKey resolve filePath line n)))) := by
  have hp : ∀ n, matchesKey resolve filePath line n = true ↔
      noteKey resolve n = (resolve filePath, line) :=
    fun n => matchesKey_iff resolve filePath line n
  have hk : noteKey resolve
      (⟨resolve filePath, line, jsTrim text, nowISO⟩ : Note)
      = (resolve filePath, line) := by
    simp [noteKey, hres]
  refine ⟨?_, ?_, ?_, ?_⟩
  · intro h
    unfold UniqueKeys sanitizeNotes
    rw [List.map_map]
    have heq : (noteKey resolve ∘ jToNote resolve) = jNoteKey resolve :=
      funext (noteKey_jToNote resolve hres)
    rw [heq]
    exact h
  · intro h
    exact upsertInto_nodup resolve (resolve filePath, line)
      (matchesKey resolve filePath line) _ hp hk notes h
  · intro h
    exact upsertInto_length_of_mem (matchesKey resolve filePath line) _ notes h
  · intro h
    exact List.Sublist.nodup
      (List.Sublist.map (noteKey resolve) (List.filter_sublist notes)) h

theorem store_key_uniqueness_witness :
    UniqueKeys (fun s => s) (sanitizeNotes (fun s => s) []) ∧
    UniqueKeys (fun s => s) (upsertNotes (fun s => s) "t2"
      [⟨"/a.ts", 4, "x", "t"⟩] "/a.ts" 4 "y") ∧
    (upsertNotes (fun s => s) "t2" [⟨"/a.ts", 4, "x", "t"⟩] "/a.ts" 4
        "y").length = ([⟨"/a.ts", 4, "x", "t"⟩] : List Note).length ∧
    UniqueKeys (fun s => s) (([⟨"/a.ts", 4, "x", "t"⟩] : List Note).filter
      (fun n => !(matchesKey (fun s => s) "/a.ts" 4 n))) := by
  have h := store_key_uniqueness (fun s => s) (fun _ => rfl) []
    [⟨"/a.ts", 4, "x", "t"⟩] "t2" "/a.ts" "y" 4
  exact ⟨h.1 (by decide), h.2.1 (by decide),
    h.2.2.1 ⟨⟨"/a.ts", 4, "x", "t"⟩, by decide, by decide⟩,
    h.2.2.2 (by decide)⟩

/-! ### Claim C4 -/

/-- C4 (counterexample) — "on any store" fails: a persisted file can
hold two entries with the same `(filePath, line)` key (`loadNotes` does
not deduplicate, as the load below shows), and after
`upsert(p, l, t1); upsert(p, l, t2)` the collection still contains two
annotations with that key, not exactly one — the upsert only replaces
the first match. -/
theorem upsert_duplicate_store_counterexample :
    (loadNotes
        (fun _ => some (JValue.jobj [("notes", JValue.jarr
          [JValue.jobj [("filePath", JValue.jstr "/a.ts"),
            ("line", JValue.jnum 4), ("text", JValue.jstr "old"),
            ("timestamp", JValue.jstr "t0")],
           JValue.jobj [("filePath", JValue.jstr "/a.ts"),
            ("line", JValue.jnum 4), ("text", JValue.jstr "old"),
            ("timestamp", JValue.jstr "t0")]])]))
        (fun s => s) "notes.json" 0 [("notes.json", "data")]).data.notes
      = [⟨"/a.ts", 4, "old", "t0"⟩, ⟨"/a.ts", 4, "old", "t0"⟩] ∧
    ((upsertNotes (fun s => s) "t2"
        (upsertNotes (fun s => s) "t1"
          [⟨"/a.ts", 4, "old", "t0"⟩, ⟨"/a.ts", 4, "old", "t0"⟩]
          "/a.ts" 4 "fix this")
        "/a.ts" 4 "fix this better").filter
      (matchesKey (fun s => s) "/a.ts" 4)).length = 2 :=
  ⟨by decide, by decide⟩

/-- C4 (amended) — On any store satisfying the uniqueness invariant
(`UniqueKeys`), calling `upsert(p, l, t1)` and then `upsert(p, l, t2)`
leaves exactly one annotation with key `(canonical p, l)`: the filter by
that key returns the single note with path `resolve p`, the trimmed
`t2`, and the timestamp stamped by the second call. -/
theorem upsert_idempotent_on_key (resolve : String → String)
    (hres : ∀ x, resolve (resolve x) = resolve x) (notes : List Note)
    (filePath : String) (line : Int) (ts1 ts2 t1 t2 : String)
    (hU : UniqueKeys resolve notes) :
    (upsertNotes resolve ts2
        (upsertNotes resolve ts1 notes filePath line t1)
        filePath line t2).filter (matchesKey resolve filePath line)
      = [⟨resolve filePath, line, jsTrim t2, ts2⟩] := by
  have hp : ∀ n, matchesKey resolve filePath line n = true ↔
      noteKey resolve n = (resolve filePath, line) :=
    fun n => matchesKey_iff resolve filePath line n
  have hk1 : noteKey resolve
      (⟨resolve filePath, line, jsTrim t1, ts1⟩ : Note)
      = (resolve filePath, line) := by simp [noteKey, hres]
  have hk2 : noteKey resolve
      (⟨resolve filePath, line, jsTrim t2, ts2⟩ : Note)
      = (resolve filePath, line) := by simp [noteKey, hres]
  have hU1 : UniqueKeys resolve
      (upsertNotes resolve ts1 notes filePath line t1) :=
    upsertInto_nodup resolve (resolve filePath, line)
      (matchesKey resolve filePath line) _ hp hk1 notes hU
  exact upsertInto_filter resolve (resolve filePath, line)
    (matchesKey resolve filePath line) _ hp hk2 _ hU1

theorem upsert_idempotent_on_key_witness :
    (upsertNotes (fun s => s) "t2"
        (upsertNotes (fun s => s) "t1" [] "/a.ts" 4 "fix this")
        "/a.ts" 4 "fix this better").filter
      (matchesKey (fun s => s) "/a.ts" 4)
      = [⟨"/a.ts", 4, jsTrim "fix this better", "t2"⟩] :=
  upsert_idempotent_on_key (fun s => s) (fun _ => rfl) [] "/a.ts" 4
    "t1" "t2" "fix this" "fix this better" (by decide)

/-! ### Claim C6 -/

/-- C6 — The Position Resolver's output contains exactly the
annotations whose line lies in `[0, lineCount)`; an out-of-range
annotation is excluded from the render output only — it is not removed
anywhere (`filterValidNotes` is pure), and membership in
`getAllNotesSorted` coincides with membership in the loaded store. -/
theorem position_resolver_spec (notes : List Note) (lineCount : Nat)
    (a : Note) (parse : String → Option JValue) (resolve : String → String)
    (notesPath : String) (now : Nat) (fs : FS) :
    (a ∈ filterValidNotes notes lineCount ↔
      (a ∈ notes ∧ 0 ≤ a.line ∧ a.line < (lineCount : Int))) ∧
    (a ∈ getAllNotesSorted parse resolve notesPath now fs ↔
      a ∈ (loadNotes parse resolve notesPath now fs).data.notes) := by
  constructor
  · simp [filterValidNotes, List.mem_filter, and_assoc]
  · exact List.mem_mergeSort

/-! ### Claim C7 -/

/-- A produced display line is "good" when it fits the width, or is a
single input word placed on its own line unbroken. -/
def GoodLine (w : Nat) (ws : List String) (line : String) : Prop :=
  line.length ≤ w ∨ line ∈ ws

lemma wrapStep_inv (w : Nat) (ws : List String)
    (acc : List String × String) (word : String) (hw : word ∈ ws)
    (h1 : ∀ li ∈ acc.1, GoodLine w ws li)
    (h2 : acc.2 = "" ∨ GoodLine w ws acc.2) :
    (∀ li ∈ (wrapStep w acc word).1, GoodLine w ws li) ∧
    ((wrapStep w acc word).2 = "" ∨ GoodLine w ws (wrapStep w acc word).2) := by
  unfold wrapStep
  by_cases hc : acc.2.length + word.length + 1 ≤ w
  · rw [if_pos hc]
    refine ⟨h1, Or.inr ?_⟩
    by_cases h0 : acc.2 = ""
    · rw [if_pos h0]
      exact Or.inr hw
    · rw [if_neg h0]
      left
      have hsp : (" " : String).length = 1 := by decide
      rw [String.length_append, String.length_append, hsp]
      omega
  · rw [if_neg hc]
    refine ⟨?_, Or.inr (Or.inr hw)⟩
    by_cases h0 : acc.2 = ""
    · rw [if_pos h0]
      exact h1
    · rw [if_neg h0]
      intro li hli
      rcases List.mem_append.1 hli with hli | hli
      · exact h1 li hli
      · rcases List.mem_singleton.1 hli with rfl
        rcases h2 with h2 | h2
        · exact absurd h2 h0
        · exact h2

lemma wrapFold_inv (w : Nat) (ws : List String) :
    ∀ (l : List String) (acc : List String × String),
      (∀ x ∈ l, x ∈ ws) → (∀ li ∈ acc.1, GoodLine w ws li) →
      (acc.2 = "" ∨ GoodLine w ws acc.2) →
      (∀ li ∈ (l.foldl (wrapStep w) acc).1, GoodLine w ws li) ∧
      ((l.foldl (wrapStep w) acc).2 = "" ∨
        GoodLine w ws (l.foldl (wrapStep w) acc).2) := by
  intro l
  induction l with
  | nil => intro acc _ h1 h2; exact ⟨h1, h2⟩
  | cons x t ih =>
    intro acc hl h1 h2
    rw [List.foldl_cons]
    have hx : x ∈ ws := hl x (List.mem_cons_self x t)
    obtain ⟨g1, g2⟩ := wrapStep_inv w ws acc x hx h1 h2
    exact ih (wrapStep w acc x) (fun y hy => hl y (List.mem_cons_of_mem x hy))
      g1 g2

/-- C7 — `formatTextForDisplay` implements greedy word-wrap on the
words of `text.split(' ')`: for non-empty input the output is the
wrapped lines joined with newlines, and every wrapped line either has
length ≤ `w` or is a single input word longer than the width, placed on
its own line unbroken. -/
theorem formatTextForDisplay_wrap (text : String) (w : Nat) (line : String)
    (htext : text ≠ "") (hline : line ∈ wrapLines text w) :
    (line.length ≤ w ∨ line ∈ jsSplitOnSpace text) ∧
    formatTextForDisplay text w = jsJoin "\n" (wrapLines text w) := by
  refine ⟨?_, by rw [formatTextForDisplay, if_neg htext]⟩
  have hinv := wrapFold_inv w (jsSplitOnSpace text) (jsSplitOnSpace text)
    ([], "") (fun x hx => hx) (by intro li hli; cases hli) (Or.inl rfl)
  unfold wrapLines at hline
  set acc := (jsSplitOnSpace text).foldl (wrapStep w) ([], "") with hacc
  by_cases h0 : acc.2 = ""
  · rw [if_pos h0] at hline
    exact hinv.1 line hline
  · rw [if_neg h0] at hline
    rcases List.mem_append.1 hline with hli | hli
    · exact hinv.1 line hli
    · rcases List.mem_singleton.1 hli with rfl
      rcases hinv.2 with h2 | h2
      · exact absurd h2 h0
      · exact h2

theorem formatTextForDisplay_wrap_witness :
    (("ab" : String).length ≤ 3 ∨ ("ab" : String) ∈ jsSplitOnSpace "ab cd") ∧
    formatTextForDisplay "ab cd" 3 = jsJoin "\n" (wrapLines "ab cd" 3) :=
  formatTextForDisplay_wrap "ab cd" 3 "ab" (by decide) (by decide)

/-! ### Claim C8 -/

lemma isValidNote_text (v : JValue) (h : isValidNote v = true) :
    jsTrim (jGetStr v "text") ≠ "" := by
  cases v with
  | jobj fields =>
    unfold isValidNote at h
    simp only [Bool.and_eq_true] at h
    obtain ⟨⟨⟨h1, h2⟩, h3⟩, h4⟩ := h
    cases hl : jlookup fields "text" with
    | none => rw [hl] at h3; cases h3
    | some jv =>
      cases jv with
      | jstr t =>
        have hg : jGetStr (JValue.jobj fields) "text" = t := by
          simp [jGetStr, hl]
        rw [hg]
        rw [hl] at h3
        exact of_decide_eq_true h3
      | jnull => rw [hl] at h3; cases h3
      | jbool b => rw [hl] at h3; cases h3
      | jnum m => rw [hl] at h3; cases h3
      | jarr es => rw [hl] at h3; cases h3
      | jobj fs => rw [hl] at h3; cases h3
  | jnull => cases h
  | jbool b => cases h
  | jnum m => cases h
  | jstr t => cases h
  | jarr es => cases h

/-- A 1001-character text, over the configured `MAX_NOTE_LENGTH` of
1000 (`src/constants.ts`). -/
def longText : String := String.mk (List.replicate 1001 'a')

set_option maxRecDepth 40000

/-- C8 (counterexample) — The store enforces no 1000-character bound:
`sanitizeNotes` (the per-element validation of the load path) accepts
and returns an annotation whose text is 1001 characters long, and the
write path `upsertNotes` does not reject empty-after-trim text — an
upsert with whitespace-only text stores a note with empty text. -/
theorem store_text_bound_counterexample :
    sanitizeNotes (fun s => s)
        [JValue.jobj [("filePath", JValue.jstr "/a.ts"),
          ("line", JValue.jnum 0), ("text", JValue.jstr longText),
          ("timestamp", JValue.jstr "t")]]
      = [⟨"/a.ts", 0, longText, "t"⟩] ∧
    longText.length = 1001 ∧
    upsertNotes (fun s => s) "t" [] "/p.ts" 0 "   "
      = [⟨"/p.ts", 0, "", "t"⟩] :=
  ⟨by decide, by decide, by decide⟩

/-- C8 (amended) — Normalization actually enforced by the store: every
annotation returned by the load path (`sanitizeNotes`) has text that is
the trimmed form of the raw element's text and is non-empty; the write
path (`upsertNotes`) stores the trimmed input text for the new or
replaced entry (every other note is carried over).  No length bound is
enforced by the store — the 1000-character limit lives only in the
webview input layer. -/
theorem store_text_normalization (resolve : String → String)
    (xs : List JValue) (notes : List Note)
    (nowISO filePath text : String) (line : Int) (n : Note) :
    (n ∈ sanitizeNotes resolve xs →
      n.text ≠ "" ∧
      ∃ v, isValidNote v = true ∧ n.text = jsTrim (jGetStr v "text")) ∧
    (n ∈ upsertNotes resolve nowISO notes filePath line text →
      n ∈ notes ∨ n.text = jsTrim text) := by
  constructor
  · intro hn
    unfold sanitizeNotes at hn
    rcases List.mem_map.1 hn with ⟨v, hv, rfl⟩
    have hvalid := (List.mem_filter.1 hv).2
    exact ⟨isValidNote_text v hvalid, ⟨v, hvalid, rfl⟩⟩
  · intro hn
    rcases mem_upsertInto _ _ notes n hn with rfl | h
    · exact Or.inr rfl
    · exact Or.inl h

theorem store_text_normalization_witness :
    ((⟨"/a.ts", 4, "x", "t"⟩ : Note).text ≠ "") ∧
    ((⟨"/p.ts", 0, "y", "t2"⟩ : Note) ∈ ([] : List Note) ∨
      (⟨"/p.ts", 0, "y", "t2"⟩ : Note).text = jsTrim "y") := by
  have h1 := (store_text_normalization (fun s => s)
    [JValue.jobj [("filePath", JValue.jstr "/a.ts"), ("line", JValue.jnum 4),
      ("text", JValue.jstr "x"), ("timestamp", JValue.jstr "t")]]
    [] "t" "/a.ts" "x" 4 ⟨"/a.ts", 4, "x", "t"⟩).1 (by decide)
  have h2 := (store_text_normalization (fun s => s) [] [] "t2" "/p.ts" "y" 0
    ⟨"/p.ts", 0, "y", "t2"⟩).2 (by decide)
  exact ⟨h1.1, h2⟩

/-! ### Claim C9 -/

lemma clickStep_sel (resolves : Nat → Nat → Bool) (s : ClickState)
    (ev : SelEvent) :
    clickStep resolves s (ClickEvent.sel ev)
      = if (!ev.isEmpty || !ev.isMouse) then (s, 0)
        else if isSamePosition s ev.line ev.character then (s, 0)
        else (⟨some (ev.line, ev.character), some (ev.line, ev.character)⟩, 0) :=
  rfl

lemma clickStep_sel_count (resolves : Nat → Nat → Bool) (s : ClickState)
    (ev : SelEvent) : (clickStep resolves s (ClickEvent.sel ev)).2 = 0 := by
  rw [clickStep_sel]
  by_cases h1 : (!ev.isEmpty || !ev.isMouse) = true
  · rw [if_pos h1]
  · rw [if_neg h1]
    by_cases h2 : isSamePosition s ev.line ev.character = true
    · rw [if_pos h2]
    · rw [if_neg h2]

lemma runClicks_fires_le (resolves : Nat → Nat → Bool) :
    ∀ (evs : List ClickEvent) (s : ClickState),
      (∀ e ∈ evs, e = ClickEvent.fire) →
      (runClicks resolves s evs).2
        ≤ (match s.clickTimeout with | some _ => 1 | none => 0) := by
  intro evs
  induction evs with
  | nil => intro s _; simp [runClicks]
  | cons e t ih =>
    intro s hall
    have he : e = ClickEvent.fire := hall e (List.mem_cons_self e t)
    subst he
    have htail : ∀ x ∈ t, x = ClickEvent.fire :=
      fun x hx => hall x (List.mem_cons_of_mem _ hx)
    rw [runClicks]
    cases hct : s.clickTimeout with
    | none =>
      have hstep : clickStep resolves s ClickEvent.fire = (s, 0) := by
        unfold clickStep
        rw [hct]
      rw [hstep]
      have hrec := ih s htail
      rw [hct] at hrec
      simpa [hct] using hrec
    | some p =>
      have hstep : clickStep resolves s ClickEvent.fire
          = (⟨none, s.lastClickPosition⟩,
             if resolves p.1 p.2 then 1 else 0) := by
        unfold clickStep
        rw [hct]
      rw [hstep]
      have hrec := ih ⟨none, s.lastClickPosition⟩ htail
      simp only [] at hrec
      simp only []
      have hif : (if resolves p.1 p.2 then 1 else 0) ≤ 1 := by
        split <;> omega
      omega

/-- C9 — Debounced click detection: (a) two qualifying mouse events at
the same `(line, character)` position followed by any number of timer
expiries invoke the resolved-click callback at most once; (b) an event
repeating the last recorded position never starts or restarts the
debounce — the step is a no-op; (c) a new qualifying event while a
candidate is pending cancels the outstanding timer: afterwards the only
pending candidate is the most recent position. -/
theorem clickHandler_debounce_spec (resolves : Nat → Nat → Bool)
    (s : ClickState) (e1 e2 ev : SelEvent) (rest : List ClickEvent)
    (l c : Nat) (q : Nat × Nat)
    (h1e : e1.isEmpty = true) (h1m : e1.isMouse = true)
    (h2e : e2.isEmpty = true) (h2m : e2.isMouse = true)
    (hsl : e1.line = e2.line) (hsc : e1.character = e2.character)
    (hrest : ∀ x ∈ rest, x = ClickEvent.fire) :
    (runClicks resolves s
        (ClickEvent.sel e1 :: ClickEvent.sel e2 :: rest)).2 ≤ 1 ∧
    (isSamePosition s l c = true → ev.line = l → ev.character = c →
      clickStep resolves s (ClickEvent.sel ev) = (s, 0)) ∧
    (s.clickTimeout = some q → ev.isEmpty = true → ev.isMouse = true →
      isSamePosition s ev.line ev.character = false →
      (clickStep resolves s (ClickEvent.sel ev)).1.clickTimeout
        = some (ev.line, ev.character)) := by
  refine ⟨?_, ?_, ?_⟩
  · rw [runClicks, runClicks]
    have h01 := clickStep_sel_count resolves s e1
    have h02 := clickStep_sel_count resolves
      (clickStep resolves s (ClickEvent.sel e1)).1 e2
    have hrec := runClicks_fires_le resolves rest
      (clickStep resolves
        (clickStep resolves s (ClickEvent.sel e1)).1 (ClickEvent.sel e2)).1
      hrest
    have hb : (match (clickStep resolves
        (clickStep resolves s (ClickEvent.sel e1)).1
          (ClickEvent.sel e2)).1.clickTimeout with
        | some _ => 1 | none => 0) ≤ 1 := by
      cases (clickStep resolves
        (clickStep resolves s (ClickEvent.sel e1)).1
          (ClickEvent.sel e2)).1.clickTimeout <;> simp
    simp only []
    omega
  · intro hsame hl hc
    subst hl
    subst hc
    rw [clickStep_sel]
    by_cases hq : (!ev.isEmpty || !ev.isMouse) = true
    · rw [if_pos hq]
    · rw [if_neg hq, if_pos hsame]
  · intro hpending hqe hqm hdiff
    rw [clickStep_sel]
    have hq : (!ev.isEmpty || !ev.isMouse) = false := by
      rw [hqe, hqm]
      rfl
    simp [hq, hdiff]

theorem clickHandler_debounce_spec_witness :
    (runClicks (fun _ _ => true) ⟨none, none⟩
        (ClickEvent.sel ⟨true, true, 3, 10⟩
          :: ClickEvent.sel ⟨true, true, 3, 10⟩
          :: [ClickEvent.fire, ClickEvent.fire])).2 ≤ 1 := by
  have h := clickHandler_debounce_spec (fun _ _ => true) ⟨none, none⟩
    ⟨true, true, 3, 10⟩ ⟨true, true, 3, 10⟩ ⟨true, true, 3, 10⟩
    [ClickEvent.fire, ClickEvent.fire] 3 10 (0, 0)
    rfl rfl rfl rfl rfl rfl (by decide)
  exact h.1
